import Mathlib

/-!
Verification of the mutation-decision engine and patch synthesizer of the
ingress-admission-webhook repository (`webhook.go`, `main.go`).

The Go code is shallowly embedded: Go `map[string]interface{}` values become
association lists over a dynamic value type `DVal`; Go `map[string]string`
values become association lists of strings (`AnnMap`), with a possibly-nil
map represented as `Option AnnMap`; a Go run-time panic (failed type
assertion, nil-map write, nil-pointer dereference) is represented by `none`
in an `Option`-valued result, so every embedded function is total and
executable.
-/

namespace IngressWebhook

/-- Dynamic value, embedding Go `interface{}` as produced by decoding JSON:
a string, a string-keyed object, a number (embedded as an integer), a
boolean, null, or an array. A `DVal` also serves as the embedding of a
whole configuration document once it has passed the decoder's syntax
check. -/
inductive DVal where
  | str (s : String)
  | dmap (m : List (String × DVal))
  | int (n : Int)
  | bool (b : Bool)
  | null
  | arr (xs : List DVal)

/-- First-match lookup in a string-keyed association list, embedding a read
`m[k]` of a Go map (whose keys are unique, so first match is the match). -/
def lookupA {α : Type} : List (String × α) → String → Option α
  | [], _ => none
  | (k', v) :: rest, k => if k' = k then some v else lookupA rest k

/-- Go type assertion `v.(string)`: `none` means the assertion panics. -/
def asString : DVal → Option String
  | .str s => some s
  | _ => none

/-- Go type assertion `v.(map[string]interface{})`: `none` means the
assertion panics. -/
def asMap : DVal → Option (List (String × DVal))
  | .dmap m => some m
  | _ => none

/-- Embedding of `strings.ToLower` as the webhook uses it (basic-latin
letter folding over the characters of the string), written by structural
recursion over the character list so that it evaluates by kernel
reduction. -/
def lowerGo (s : String) : String := ⟨s.data.map Char.toLower⟩

/-- A policy entry: one element of the decoded `[]map[string]interface{}`
annotation configuration. -/
abbrev Entry : Type := List (String × DVal)

/-- A Go `map[string]string` annotation map (non-nil). -/
abbrev AnnMap : Type := List (String × String)

/-- Embedding of the Go map update `m[k] = v`: replace the first binding of
`k`, or append a new one. -/
def insertAnn : AnnMap → String → String → AnnMap
  | [], k, v => [(k, v)]
  | (k', v') :: rest, k, v =>
    if k' = k then (k, v) :: rest else (k', v') :: insertAnn rest k v

/-- Embedding of the subset of `metav1.ObjectMeta` the webhook reads:
namespace, name, and the annotation map (`none` embeds a nil Go map). -/
structure ObjectMeta where
  ns : String
  name : String
  annotations : Option AnnMap
deriving DecidableEq

/-- The `ignoredNamespaces` variable of webhook.go:
`metav1.NamespaceSystem` and `metav1.NamespacePublic`. -/
def ignoredNamespaces : List String := ["kube-system", "kube-public"]

/-- The constant `admissionWebhookAnnotationStatusKey` of webhook.go. -/
def statusKey : String := "admission-webhook-example.citrix.com/status"

/-- Embedding of `admissionRequired`. The metadata pointer may be nil
(`none`); the loop reads `metadata.Namespace`, so with a non-empty ignored
list and a nil pointer the first iteration panics (`none` result). -/
def admissionRequired : List String → Option ObjectMeta → Option Bool
  | [], _ => some true
  | _ :: _, none => none
  | n :: rest, some md =>
    if md.ns = n then some false else admissionRequired rest (some md)

/-- Embedding of the `ingressFound` loop of `mutationRequired`: scan the
policy entries in order, skip entries without an "ingressName" key, panic
(`none`) when a present "ingressName" is not a string (the
`ingressName.(string)` assertion in the log call), and stop at the first
case-insensitive name match. -/
def findIngressGo (name : String) : List Entry → Option Bool
  | [] => some false
  | e :: rest =>
    match lookupA e "ingressName" with
    | none => findIngressGo name rest
    | some v =>
      match asString v with
      | none => none
      | some s =>
        if lowerGo s = lowerGo name then some true else findIngressGo name rest

/-- Embedding of `mutationRequired`. `none` embeds a panic (nil metadata
dereference or a failed type assertion while scanning the policy table). -/
def mutationRequired (ignoredList : List String) (defaults : List Entry)
    (metadata : Option ObjectMeta) : Option Bool := do
  let required ← admissionRequired ignoredList metadata
  let md ← metadata
  let annotations := md.annotations.getD []
  let name := md.name
  let found ← findIngressGo name defaults
  let required := required && found
  let status := (lookupA annotations statusKey).getD ""
  let required := if lowerGo status = "mutated" then false else required
  return required

/-- One JSON-Patch operation as built by the webhook; `value` is the
annotation map placed at `/metadata/annotations` (`none` embeds a nil
map). -/
structure PatchOp where
  op : String
  path : String
  value : Option AnnMap
deriving DecidableEq

/-- Embedding of the merge loop of `updateAnnotation`
(`annotations[ann] = val.(string)` over the default annotations): `none`
embeds a panic, either from a non-string default value or from writing into
a nil map. The iteration order over the Go map is embedded as list order;
for unique keys the resulting map does not depend on it. -/
def mergeGo : Option AnnMap → List (String × DVal) → Option (Option AnnMap)
  | anns, [] => some anns
  | anns, (k, v) :: rest =>
    match asString v with
    | none => none
    | some s =>
      match anns with
      | none => none
      | some m => mergeGo (some (insertAnn m k s)) rest

/-- Embedding of `updateAnnotation` (webhook.go). The Go function mutates
the annotation map it receives and also embeds that same map as the patch
value; the embedding returns both the one-element patch and the final
contents of the caller's map. `none` embeds a panic. -/
def updateAnnotationGo (annotations : Option AnnMap)
    (defaults : List (String × DVal)) : Option (List PatchOp × Option AnnMap) := do
  let final ← mergeGo annotations defaults
  return ([{ op := "add", path := "/metadata/annotations", value := final }], final)

/-- Embedding of the lookup loop of `createPatch`: find the first entry whose
"ingressName" matches case-insensitively (skipping entries without one) and
take its "defaultAnnotations" field, asserting it to be a map. If no entry
matches, the initial empty map stands. `none` embeds a panic: a non-string
"ingressName", a missing "defaultAnnotations" key (type assertion on a nil
interface), or a non-map "defaultAnnotations". -/
def findDefaultsGo (ingressName : String) : List Entry → Option (List (String × DVal))
  | [] => some []
  | e :: rest =>
    match lookupA e "ingressName" with
    | none => findDefaultsGo ingressName rest
    | some v =>
      match asString v with
      | none => none
      | some s =>
        if lowerGo s = lowerGo ingressName then
          match lookupA e "defaultAnnotations" with
          | none => none
          | some dv => asMap dv
        else findDefaultsGo ingressName rest

/-- Embedding of `createPatch`. `json.Marshal` of the patch slice cannot
fail for these types, so the embedding returns the patch operations
themselves; `none` embeds a panic. -/
def createPatch (ingressName : String) (availableAnnotations : Option AnnMap)
    (allDefaults : List Entry) : Option (List PatchOp) := do
  let d ← findDefaultsGo ingressName allDefaults
  let (patch, _) ← updateAnnotationGo availableAnnotations d
  return patch

/-- Embedding of `v1beta1.AdmissionResponse` as the webhook populates it:
`allowed`, the optional `Result.Message`, and the optional patch. -/
structure AdmissionResponse where
  allowed : Bool
  message : Option String
  patch : Option (List PatchOp)
deriving DecidableEq

/-- Embedding of the request part of an `AdmissionReview` as `mutate` reads
it: the resource kind and the outcome of `json.Unmarshal` of the raw object
into an Ingress (whose metadata is all the webhook uses). -/
structure AdmissionRequest where
  kind : String
  objectParse : Except String ObjectMeta

/-- Embedding of the tail of `mutate` after the kind switch: evaluate
`mutationRequired` on the (possibly nil) object metadata, answer a plain
allow when no mutation is required, otherwise synthesize the patch.
`none` embeds a panic. -/
def mutateAfterDecode (defaults : List Entry) (resourceName : String)
    (objectMeta : Option ObjectMeta) : Option AdmissionResponse := do
  let req ← mutationRequired ignoredNamespaces defaults objectMeta
  if req then do
    let md ← objectMeta
    let patch ← createPatch resourceName md.annotations defaults
    return { allowed := true, message := none, patch := some patch }
  else
    return { allowed := true, message := none, patch := none }

/-- Embedding of `mutate`: for kind "Ingress" the raw object is unmarshalled
(an unmarshal error becomes a response whose `allowed` is left false and
whose Result carries the error message); for any other kind the object
metadata stays nil and control falls through to the policy check.
`none` embeds a panic. -/
def mutate (defaults : List Entry) (req : AdmissionRequest) : Option AdmissionResponse :=
  if req.kind = "Ingress" then
    match req.objectParse with
    | .error e => some { allowed := false, message := some e, patch := none }
    | .ok md => mutateAfterDecode defaults md.name (some md)
  else
    mutateAfterDecode defaults "" none

/-- Embedding of the body-handling part of `serve`: the outcome of
deserializing the request body, and the URL path. A decode error becomes a
response whose `allowed` is left false and whose Result carries the error
message; the "/mutate" path calls `mutate`; any other path leaves the
response nil (inner `none`). The outer `none` embeds a panic inside
`mutate`. -/
def serve (defaults : List Entry) (path : String)
    (decoded : Except String AdmissionRequest) : Option (Option AdmissionResponse) :=
  match decoded with
  | .error e => some (some { allowed := false, message := some e, patch := none })
  | .ok ar =>
    if path = "/mutate" then (mutate defaults ar).map some
    else some none

/-- Embedding of `json.Unmarshal(byteValue, &defaultAnnotations)` for the
`[]map[string]interface{}` table, applied to a document that passed the
decoder's syntax check. A non-array document is an UnmarshalTypeError that
leaves the slice at its zero value. An array is decoded element-wise: an
object element becomes the corresponding entry, and a non-object element
is an UnmarshalTypeError that leaves that element at its zero value — the
nil map, which every later read treats as empty — while the remaining
elements are still decoded (the decoder completes the unmarshaling as best
it can and returns the first error). The Boolean records whether an error
was returned; `main` discards it. -/
def unmarshalTable : DVal → List Entry × Bool
  | .arr xs =>
    (xs.map fun x =>
      match x with
      | .dmap m => m
      | _ => ([] : Entry),
     !xs.all fun x =>
      match x with
      | .dmap _ => true
      | _ => false)
  | _ => ([], true)

/-- Embedding of the default-annotation loading in `main` (main.go).
`none` embeds every case in which no syntax-checked document reaches the
element decoder: the file is missing or unreadable (the nil handle reads
as empty bytes) or the bytes fail the JSON syntax check — in all of these
`json.Unmarshal` returns before writing anything and the table keeps its
zero value, the empty table. Otherwise the syntax-checked document is
decoded by `unmarshalTable`. Every error along the way is discarded, as in
the source. -/
def loadDefaultAnnotations (doc : Option DVal) : List Entry :=
  match doc with
  | none => []
  | some v => (unmarshalTable v).1

/-- A syntactically valid configuration document whose first element has
the wrong type (a string where an object is expected) and whose second
element is a well-formed policy entry. -/
def mixedDoc : DVal :=
  .arr [.str "x",
        .dmap [("ingressName", .str "test-ingress"),
               ("defaultAnnotations", .dmap [("k", .str "v")])]]

end IngressWebhook

namespace IngressWebhook

/-! Derived predicates used to state the claims. -/

/-- Spec-side matching predicate: the entry has an "ingressName" field that
is a string equal, case-insensitively, to `name`. -/
def entryMatches (name : String) (e : Entry) : Bool :=
  match lookupA e "ingressName" with
  | none => false
  | some v =>
    match asString v with
    | none => false
    | some s => lowerGo s = lowerGo name

/-- The object already carries the status marker with value "mutated",
compared case-insensitively (a missing key reads as "" in Go). -/
def hasMutatedMarker (anns : Option AnnMap) : Bool :=
  lowerGo ((lookupA (anns.getD []) statusKey).getD "") = "mutated"

/-- Well-formedness of a policy table for the decision engine: every
"ingressName" field that is present holds a string, so the
`ingressName.(string)` assertions cannot panic. Any table decoded from the
documented configuration format satisfies this. -/
def wfNames (t : List Entry) : Bool :=
  t.all fun e =>
    match lookupA e "ingressName" with
    | none => true
    | some v => (asString v).isSome

/-- Every value of the association list is a string. -/
def allStr (d : List (String × DVal)) : Bool :=
  d.all fun p => (asString p.2).isSome

/-- The string restriction of a dynamic map: keep the bindings whose value
is a string. -/
def strDefaults (d : List (String × DVal)) : AnnMap :=
  d.filterMap fun p => (asString p.2).map fun s => (p.1, s)

/-- Merge a string map into an annotation map, later bindings overwriting
earlier ones, exactly as the `updateAnnotation` loop does. -/
def mergeStr (m : AnnMap) (d : AnnMap) : AnnMap :=
  d.foldl (fun acc p => insertAnn acc p.1 p.2) m

/-- The first entry of the table whose "ingressName" matches `name`
case-insensitively: the spec-side notion of the entry both scans use. -/
def firstMatch (name : String) : List Entry → Option Entry
  | [] => none
  | e :: rest => if entryMatches name e then some e else firstMatch name rest

/-! Helper lemmas. -/

theorem lookupA_insertAnn (m : AnnMap) (k v q : String) :
    lookupA (insertAnn m k v) q = if q = k then some v else lookupA m q := by
  induction m with
  | nil =>
    by_cases h : q = k
    · subst h; simp [insertAnn, lookupA]
    · have h2 : ¬ k = q := fun he => h he.symm
      simp [insertAnn, lookupA, h, h2]
  | cons p rest ih =>
    obtain ⟨k1, v1⟩ := p
    by_cases hk : k1 = k
    · subst hk
      by_cases hq : q = k1
      · subst hq; simp [insertAnn, lookupA]
      · have h2 : ¬ k1 = q := fun he => hq he.symm
        simp [insertAnn, lookupA, hq, h2]
    · by_cases hq : k1 = q
      · subst hq
        simp [insertAnn, lookupA, hk]
      · simp [insertAnn, lookupA, hk, hq, ih]

theorem lookupA_eq_none {α : Type} (m : List (String × α)) (k : String)
    (h : k ∉ m.map Prod.fst) : lookupA m k = none := by
  induction m with
  | nil => rfl
  | cons p rest ih =>
    simp only [List.map_cons, List.mem_cons] at h
    push_neg at h
    have h2 : ¬ p.1 = k := fun he => h.1 he.symm
    simp [lookupA, h2, ih h.2]

theorem admissionRequired_some (l : List String) (md : ObjectMeta) :
    admissionRequired l (some md) = some (!decide (md.ns ∈ l)) := by
  induction l with
  | nil => simp [admissionRequired]
  | cons n rest ih =>
    by_cases h : md.ns = n
    · simp [admissionRequired, h]
    · simp [admissionRequired, h, ih]

theorem findIngressGo_eq (name : String) (t : List Entry) (h : wfNames t = true) :
    findIngressGo name t = some (t.any (entryMatches name)) := by
  induction t with
  | nil => rfl
  | cons e rest ih =>
    simp only [wfNames, List.all_cons, Bool.and_eq_true] at h
    have hrest := ih h.2
    match he : lookupA e "ingressName" with
    | none =>
      simp [findIngressGo, he, entryMatches, hrest]
    | some v =>
      have hs : (asString v).isSome := by simpa [he] using h.1
      match hv : asString v with
      | none => rw [hv] at hs; simp at hs
      | some s =>
        by_cases hm : lowerGo s = lowerGo name
        · simp [findIngressGo, he, hv, hm, entryMatches]
        · simp [findIngressGo, he, hv, hm, entryMatches, hrest]

theorem mutationRequired_char (t : List Entry) (md : ObjectMeta)
    (h : wfNames t = true) :
    mutationRequired ignoredNamespaces t (some md) =
      some (!decide (md.ns ∈ ignoredNamespaces)
        && t.any (entryMatches md.name)
        && !hasMutatedMarker md.annotations) := by
  simp only [mutationRequired, admissionRequired_some, findIngressGo_eq md.name t h,
    Option.bind_eq_bind, Option.some_bind]
  by_cases hm : hasMutatedMarker md.annotations
  · simp only [hasMutatedMarker, decide_eq_true_eq] at hm
    simp [hm, hasMutatedMarker]
  · simp only [hasMutatedMarker, decide_eq_true_eq] at hm
    simp [hm, hasMutatedMarker]

theorem mergeGo_eq_mergeStr (d : List (String × DVal)) (h : allStr d = true)
    (m : AnnMap) :
    mergeGo (some m) d = some (some (mergeStr m (strDefaults d))) := by
  induction d generalizing m with
  | nil => rfl
  | cons p rest ih =>
    obtain ⟨k, v⟩ := p
    simp only [allStr, List.all_cons, Bool.and_eq_true] at h
    match hv : asString v with
    | none => rw [hv] at h; simp at h
    | some s =>
      simp only [mergeGo, hv]
      rw [ih h.2 (insertAnn m k s)]
      simp [strDefaults, List.filterMap_cons, hv, mergeStr]

theorem lookupA_mergeStr (d : AnnMap) (hnd : (d.map Prod.fst).Nodup)
    (m : AnnMap) (q : String) :
    lookupA (mergeStr m d) q =
      match lookupA d q with
      | some v => some v
      | none => lookupA m q := by
  induction d generalizing m with
  | nil => rfl
  | cons p rest ih =>
    obtain ⟨k, v⟩ := p
    simp only [List.map_cons, List.nodup_cons] at hnd
    have hfold : mergeStr m ((k, v) :: rest) = mergeStr (insertAnn m k v) rest := rfl
    rw [hfold, ih hnd.2 (insertAnn m k v)]
    by_cases hq : k = q
    · subst hq
      have hnone : lookupA rest k = none :=
        lookupA_eq_none rest k (by simpa using hnd.1)
      simp [hnone, lookupA, lookupA_insertAnn]
    · have hq2 : ¬ q = k := fun he => hq he.symm
      cases hrq : lookupA rest q with
      | none => simp [lookupA, hq, hrq, lookupA_insertAnn, hq2]
      | some w => simp [lookupA, hq, hrq, lookupA_insertAnn, hq2]

theorem strDefaults_keys (d : List (String × DVal)) (h : allStr d = true) :
    (strDefaults d).map Prod.fst = d.map Prod.fst := by
  induction d with
  | nil => rfl
  | cons p rest ih =>
    obtain ⟨k, v⟩ := p
    simp only [allStr, List.all_cons, Bool.and_eq_true] at h
    match hv : asString v with
    | none => rw [hv] at h; simp at h
    | some s =>
      have ih2 := ih h.2
      simp only [strDefaults] at ih2
      simp [strDefaults, List.filterMap_cons, hv, ih2]

theorem createPatch_char (name : String) (anns : AnnMap) (t : List Entry)
    (d : List (String × DVal)) (hfind : findDefaultsGo name t = some d)
    (hs : allStr d = true) :
    createPatch name (some anns) t =
      some [{ op := "add", path := "/metadata/annotations",
              value := some (mergeStr anns (strDefaults d)) }] := by
  simp [createPatch, hfind, updateAnnotationGo, mergeGo_eq_mergeStr d hs anns]

/-! The claims. -/

/-- C1: for every object metadata and policy table (well-formed in that
every present "ingressName" field is a string, as the configuration format
prescribes), `mutationRequired` returns true iff the namespace is not in
the fixed excluded set, some entry matches the name case-insensitively,
and the annotations do not carry the status marker with value "mutated"
(case-insensitively); the right-hand side depends on no other field of the
object. -/
theorem claim_c1_decision (t : List Entry) (md : ObjectMeta)
    (h : wfNames t = true) :
    mutationRequired ignoredNamespaces t (some md) =
      some (!decide (md.ns ∈ ignoredNamespaces)
        && t.any (entryMatches md.name)
        && !hasMutatedMarker md.annotations) :=
  mutationRequired_char t md h

theorem claim_c1_witness :
    mutationRequired ignoredNamespaces
      [[("ingressName", DVal.str "Class1")]]
      (some { ns := "default", name := "class1", annotations := some [] }) =
      some true :=
  (claim_c1_decision [[("ingressName", DVal.str "Class1")]]
    { ns := "default", name := "class1", annotations := some [] } rfl).trans
    (by decide)

/-- C2: for every object name, current (non-nil) annotation map, and policy
table whose lookup yields the dynamic default map `d` (with string values
and, as for every decoded Go map, distinct keys), `createPatch` returns
exactly one operation, an "add" at /metadata/annotations, whose value maps
each key of the matched defaults to the policy value (overwriting the
submitter's value) and leaves every other key at its current value. -/
theorem claim_c2_patch_shape (name : String) (anns : AnnMap) (t : List Entry)
    (d : List (String × DVal)) (hfind : findDefaultsGo name t = some d)
    (hs : allStr d = true) (hnd : (d.map Prod.fst).Nodup) :
    ∃ m : AnnMap,
      createPatch name (some anns) t =
        some [{ op := "add", path := "/metadata/annotations", value := some m }] ∧
      ∀ k, lookupA m k =
        match lookupA (strDefaults d) k with
        | some v => some v
        | none => lookupA anns k := by
  refine ⟨mergeStr anns (strDefaults d), createPatch_char name anns t d hfind hs, ?_⟩
  intro k
  have hnd2 : ((strDefaults d).map Prod.fst).Nodup := by
    rw [strDefaults_keys d hs]; exact hnd
  exact lookupA_mergeStr (strDefaults d) hnd2 anns k

theorem claim_c2_witness :
    ∃ m : AnnMap,
      createPatch "test-ingress"
        (some [("ingress.citrix.com/secure-port", "443"), ("user", "1")])
        [[("ingressName", DVal.str "Test-Ingress"),
          ("defaultAnnotations",
            DVal.dmap [("ingress.citrix.com/secure-port", DVal.str "4443"),
                       ("ingress.citrix.com/insecure-port", DVal.str "81")])]] =
        some [{ op := "add", path := "/metadata/annotations", value := some m }] ∧
      ∀ k, lookupA m k =
        match lookupA (strDefaults
          [("ingress.citrix.com/secure-port", DVal.str "4443"),
           ("ingress.citrix.com/insecure-port", DVal.str "81")]) k with
        | some v => some v
        | none => lookupA [("ingress.citrix.com/secure-port", "443"), ("user", "1")] k :=
  claim_c2_patch_shape "test-ingress"
    [("ingress.citrix.com/secure-port", "443"), ("user", "1")]
    [[("ingressName", DVal.str "Test-Ingress"),
      ("defaultAnnotations",
        DVal.dmap [("ingress.citrix.com/secure-port", DVal.str "4443"),
                   ("ingress.citrix.com/insecure-port", DVal.str "81")])]]
    [("ingress.citrix.com/secure-port", DVal.str "4443"),
     ("ingress.citrix.com/insecure-port", DVal.str "81")]
    rfl rfl (by decide)

/-- C4, counterexample: `updateAnnotation` is not free of side effects on
its inputs. On the empty annotation map and a one-entry default map the
post-call contents of the caller's map (second component of the embedding's
result, the in-place-mutated Go map) differ from the map that was passed
in. -/
theorem claim_c4_counterexample :
    updateAnnotationGo (some []) [("k", DVal.str "v")] =
      some ([{ op := "add", path := "/metadata/annotations",
               value := some [("k", "v")] }], some [("k", "v")]) ∧
    (some [("k", "v")] : Option AnnMap) ≠ some ([] : AnnMap) := by
  constructor
  · rfl
  · decide

/-- C4 as amended: patch synthesis is deterministic — the patch and the
post-call state of the annotation map are a function of the inputs alone,
both equal to the merge of the defaults into the map — but it is not free
of side effects: the caller's annotation map is mutated in place to that
merge (and the patch value aliases it), so the input map is left unchanged
only when the merge changes nothing. -/
theorem claim_c4_amended (anns : AnnMap) (d : List (String × DVal))
    (h : allStr d = true) :
    updateAnnotationGo (some anns) d =
      some ([{ op := "add", path := "/metadata/annotations",
               value := some (mergeStr anns (strDefaults d)) }],
            some (mergeStr anns (strDefaults d))) := by
  simp [updateAnnotationGo, mergeGo_eq_mergeStr d h anns]

theorem claim_c4_witness :
    updateAnnotationGo (some [("a", "1")]) [("k", DVal.str "v")] =
      some ([{ op := "add", path := "/metadata/annotations",
               value := some (mergeStr [("a", "1")]
                 (strDefaults [("k", DVal.str "v")])) }],
            some (mergeStr [("a", "1")] (strDefaults [("k", DVal.str "v")]))) :=
  claim_c4_amended [("a", "1")] [("k", DVal.str "v")] rfl

/-- C5: on a well-formed table, an object whose annotations carry the
status marker with value "mutated" (case-insensitively) is never mutated
again, even though a policy entry may match; in particular, re-evaluating
`mutationRequired` on the object produced by applying any patch operation
emitted by `createPatch` — with the status marker then set — answers
false, so mutation is not reapplied. -/
theorem claim_c5_idempotence (t : List Entry) (md : ObjectMeta)
    (hwf : wfNames t = true) :
    (hasMutatedMarker md.annotations = true →
      mutationRequired ignoredNamespaces t (some md) = some false)
    ∧ ∀ (patchOps : List PatchOp) (m : AnnMap),
        createPatch md.name md.annotations t = some patchOps →
        { op := "add", path := "/metadata/annotations",
          value := some m } ∈ patchOps →
        mutationRequired ignoredNamespaces t
          (some { md with annotations := some (insertAnn m statusKey "mutated") }) =
          some false := by
  constructor
  · intro hm
    rw [mutationRequired_char t md hwf, hm]
    simp
  · intro patchOps m hcp hmem
    rw [mutationRequired_char t _ hwf]
    have hlk : lookupA (insertAnn m statusKey "mutated") statusKey =
        some "mutated" := by
      rw [lookupA_insertAnn]; simp
    have hmarked :
        hasMutatedMarker (some (insertAnn m statusKey "mutated")) = true := by
      simp only [hasMutatedMarker, Option.getD_some, hlk]
      decide
    simp only [hmarked]
    simp

theorem claim_c5_witness :
    mutationRequired ignoredNamespaces
      [[("ingressName", DVal.str "test-ingress"),
        ("defaultAnnotations", DVal.dmap [("p", DVal.str "81")])]]
      (some { ns := "default", name := "test-ingress",
              annotations := some [(statusKey, "Mutated")] }) = some false :=
  (claim_c5_idempotence
    [[("ingressName", DVal.str "test-ingress"),
      ("defaultAnnotations", DVal.dmap [("p", DVal.str "81")])]]
    { ns := "default", name := "test-ingress",
      annotations := some [(statusKey, "Mutated")] } rfl).1 (by decide)

/-- C3 fails on the code: for a review request whose kind is not
"Ingress", the kind switch leaves the object metadata nil, and the policy
check then reads `metadata.Namespace` through the nil pointer, so `mutate`
panics (embedded as `none`) instead of answering an allow with no patch;
the panic propagates through `serve`. This evaluates the code at the
failing input kind "Pod". -/
theorem claim_c3_non_ingress_panics :
    mutate [] ⟨"Pod", Except.ok ⟨"default", "mypod", some []⟩⟩ = none
    ∧ serve [] "/mutate"
        (Except.ok ⟨"Pod", Except.ok ⟨"default", "mypod", some []⟩⟩) = none :=
  ⟨rfl, rfl⟩

theorem firstMatch_isSome (name : String) (t : List Entry) :
    (firstMatch name t).isSome = t.any (entryMatches name) := by
  induction t with
  | nil => rfl
  | cons e rest ih =>
    by_cases h : entryMatches name e
    · simp [firstMatch, h]
    · simp [firstMatch, h, ih]

theorem findDefaultsGo_firstMatch (name : String) (t : List Entry)
    (h : wfNames t = true) :
    findDefaultsGo name t =
      match firstMatch name t with
      | none => some []
      | some e =>
        match lookupA e "defaultAnnotations" with
        | none => none
        | some dv => asMap dv := by
  induction t with
  | nil => rfl
  | cons e rest ih =>
    simp only [wfNames, List.all_cons, Bool.and_eq_true] at h
    match he : lookupA e "ingressName" with
    | none =>
      have hem : entryMatches name e = false := by simp [entryMatches, he]
      simp [findDefaultsGo, he, firstMatch, hem, ih h.2]
    | some v =>
      have hs : (asString v).isSome := by simpa [he] using h.1
      match hv : asString v with
      | none => rw [hv] at hs; simp at hs
      | some str =>
        by_cases hm : lowerGo str = lowerGo name
        · have hem : entryMatches name e = true := by
            simp [entryMatches, he, hv, hm]
          simp [findDefaultsGo, he, hv, hm, firstMatch, hem]
        · have hem : entryMatches name e = false := by
            simp [entryMatches, he, hv, hm]
          simp [findDefaultsGo, he, hv, hm, firstMatch, hem, ih h.2]

/-- C6: in the decision engine's lookup and in the patch synthesizer's
lookup alike, an entry without an "ingressName" field is inert (dropping
it from the front of the table changes neither lookup), an entry whose
"ingressName" does not match is likewise passed over, a first entry whose
"ingressName" matches case-insensitively is the one used (the scan stops
there), and in general — on any table whose present "ingressName" fields
are strings — both lookups are determined by the first matching entry in
table order (`firstMatch`): the engine's scan answers whether one exists
and the synthesizer's scan takes exactly that entry's
"defaultAnnotations". Finally, the table influences `mutationRequired`
and `createPatch` only through the respective lookup's result, so entry
order has no further effect. -/
theorem claim_c6_order (name : String) (e : Entry) (t t2 : List Entry)
    (md : ObjectMeta) (anns : Option AnnMap) :
    (lookupA e "ingressName" = none →
      findIngressGo name (e :: t) = findIngressGo name t ∧
      findDefaultsGo name (e :: t) = findDefaultsGo name t)
    ∧ (∀ s : String, lookupA e "ingressName" = some (DVal.str s) →
        lowerGo s = lowerGo name →
        findIngressGo name (e :: t) = some true ∧
        findDefaultsGo name (e :: t) =
          (match lookupA e "defaultAnnotations" with
           | none => none
           | some dv => asMap dv))
    ∧ (∀ s : String, lookupA e "ingressName" = some (DVal.str s) →
        lowerGo s ≠ lowerGo name →
        findIngressGo name (e :: t) = findIngressGo name t ∧
        findDefaultsGo name (e :: t) = findDefaultsGo name t)
    ∧ (wfNames t = true →
        findIngressGo name t = some (firstMatch name t).isSome ∧
        findDefaultsGo name t =
          (match firstMatch name t with
           | none => some []
           | some e2 =>
             match lookupA e2 "defaultAnnotations" with
             | none => none
             | some dv => asMap dv))
    ∧ (findIngressGo md.name t = findIngressGo md.name t2 →
        mutationRequired ignoredNamespaces t (some md) =
          mutationRequired ignoredNamespaces t2 (some md))
    ∧ (findDefaultsGo name t = findDefaultsGo name t2 →
        createPatch name anns t = createPatch name anns t2) := by
  refine ⟨?_, ?_, ?_, ?_, ?_, ?_⟩
  · intro h
    exact ⟨by simp [findIngressGo, h], by simp [findDefaultsGo, h]⟩
  · intro s hs hml
    exact ⟨by simp [findIngressGo, hs, asString, hml],
           by simp [findDefaultsGo, hs, asString, hml]⟩
  · intro s hs hml
    exact ⟨by simp [findIngressGo, hs, asString, hml],
           by simp [findDefaultsGo, hs, asString, hml]⟩
  · intro hw
    refine ⟨?_, findDefaultsGo_firstMatch name t hw⟩
    rw [findIngressGo_eq name t hw, firstMatch_isSome]
  · intro h
    simp [mutationRequired, h]
  · intro h
    simp [createPatch, h]

theorem claim_c6_witness :
    findDefaultsGo "a"
      [[("ingressName", DVal.str "b"),
        ("defaultAnnotations", DVal.dmap [("p", DVal.str "1")])],
       [("ingressName", DVal.str "A"),
        ("defaultAnnotations", DVal.dmap [("p", DVal.str "X")])],
       [("ingressName", DVal.str "a"),
        ("defaultAnnotations", DVal.dmap [("p", DVal.str "Y")])]] =
      some [("p", DVal.str "X")]
    ∧ findIngressGo "a"
        [[("ingressName", DVal.str "b"),
          ("defaultAnnotations", DVal.dmap [("p", DVal.str "1")])],
         [("ingressName", DVal.str "A"),
          ("defaultAnnotations", DVal.dmap [("p", DVal.str "X")])],
         [("ingressName", DVal.str "a"),
          ("defaultAnnotations", DVal.dmap [("p", DVal.str "Y")])]] = some true
    ∧ findIngressGo "a" ([("x", DVal.int 0)] :: [[("ingressName", DVal.str "A")]]) =
      findIngressGo "a" [[("ingressName", DVal.str "A")]]
    ∧ findDefaultsGo "a"
        ([("ingressName", DVal.str "b")] :: [[("ingressName", DVal.str "A"),
          ("defaultAnnotations", DVal.dmap [])]]) =
      findDefaultsGo "a" [[("ingressName", DVal.str "A"),
        ("defaultAnnotations", DVal.dmap [])]]
    ∧ findIngressGo "a"
        ([("ingressName", DVal.str "A"),
          ("defaultAnnotations", DVal.dmap [])] :: []) = some true := by
  have h1 := claim_c6_order "a" []
    [[("ingressName", DVal.str "b"),
      ("defaultAnnotations", DVal.dmap [("p", DVal.str "1")])],
     [("ingressName", DVal.str "A"),
      ("defaultAnnotations", DVal.dmap [("p", DVal.str "X")])],
     [("ingressName", DVal.str "a"),
      ("defaultAnnotations", DVal.dmap [("p", DVal.str "Y")])]]
    [] { ns := "d", name := "a", annotations := none } none
  have h2 := claim_c6_order "a" [("x", DVal.int 0)]
    [[("ingressName", DVal.str "A")]] [[("ingressName", DVal.str "A")]]
    { ns := "d", name := "a", annotations := none } none
  have h3 := claim_c6_order "a" [("ingressName", DVal.str "b")]
    [[("ingressName", DVal.str "A"), ("defaultAnnotations", DVal.dmap [])]]
    [] { ns := "d", name := "a", annotations := none } none
  have h4 := claim_c6_order "a"
    [("ingressName", DVal.str "A"), ("defaultAnnotations", DVal.dmap [])]
    [] [] { ns := "d", name := "a", annotations := none } none
  refine ⟨((h1.2.2.2.1 rfl).2).trans (by rfl),
          ((h1.2.2.2.1 rfl).1).trans (by rfl),
          (h2.1 rfl).1,
          (h3.2.2.1 "b" rfl (by decide)).2,
          (h4.2.1 "A" rfl (by decide)).1⟩

/-- C7 fails on the code for one kind of malformed document: a
syntactically valid configuration whose first element has the wrong type.
`json.Unmarshal` reports the type error but still decodes the remaining
elements; `main` discards the error, so the table is not empty — it holds
the two decoded elements — and a subsequent `mutationRequired` on the name
of the well-formed entry answers true, refuting the claimed universal
fallback to an empty table. -/
theorem claim_c7_counterexample :
    (unmarshalTable mixedDoc).2 = true
    ∧ (loadDefaultAnnotations (some mixedDoc)).length = 2
    ∧ mutationRequired ignoredNamespaces (loadDefaultAnnotations (some mixedDoc))
        (some { ns := "default", name := "test-ingress", annotations := some [] }) =
        some true :=
  ⟨rfl, rfl, by decide⟩

/-- C7 as amended: loading never raises to its caller (every error is
discarded and the embedded loader is total); when the configuration
document is missing, unreadable, or fails the JSON syntax check, the
decoder writes nothing, the table keeps its zero value — the empty table —
and every subsequent `mutationRequired` call on any object then returns
false. (For a syntactically valid document with wrongly-typed elements the
decoder populates what it can and the discarded error can leave a
non-empty table, so the fallback does not extend to that case.) -/
theorem claim_c7_load_fallback (md : ObjectMeta) :
    loadDefaultAnnotations none = []
    ∧ mutationRequired ignoredNamespaces (loadDefaultAnnotations none)
        (some md) = some false := by
  refine ⟨rfl, ?_⟩
  have h : loadDefaultAnnotations none = [] := rfl
  rw [h, mutationRequired_char [] md rfl]
  simp

theorem mutateAfterDecode_nil_meta (t : List Entry) (name : String) :
    mutateAfterDecode t name none = none := rfl

theorem mutateAfterDecode_allowed (t : List Entry) (name : String)
    (omd : Option ObjectMeta) (r : AdmissionResponse)
    (h : mutateAfterDecode t name omd = some r) : r.allowed = true := by
  unfold mutateAfterDecode at h
  cases hmr : mutationRequired ignoredNamespaces t omd with
  | none => rw [hmr] at h; simp at h
  | some b =>
    rw [hmr] at h
    simp only [Option.bind_eq_bind, Option.some_bind] at h
    cases b with
    | false =>
      simp only [Bool.false_eq_true, if_neg] at h
      obtain rfl := Option.some.inj h.symm
      rfl
    | true =>
      simp only [if_pos] at h
      cases omd with
      | none => simp at h
      | some md =>
        simp only [Option.some_bind] at h
        cases hcp : createPatch name md.annotations t with
        | none => rw [hcp] at h; simp at h
        | some p =>
          rw [hcp] at h
          simp only [Option.some_bind] at h
          obtain rfl := Option.some.inj h.symm
          rfl

/-- C8: a review body that cannot be decoded, or an Ingress payload that
cannot be unmarshalled, yields a response whose `allowed` stays at its
false zero value with the error message in place of a patch; and whenever
`serve` produces a response at all whose `allowed` is false, it arose from
one of exactly these two parse failures. -/
theorem claim_c8_error_paths (t : List Entry) (path e : String)
    (req : AdmissionRequest) (d : Except String AdmissionRequest)
    (r : AdmissionResponse) :
    (serve t path (Except.error e) =
      some (some { allowed := false, message := some e, patch := none }))
    ∧ (req.kind = "Ingress" → req.objectParse = Except.error e →
        serve t "/mutate" (Except.ok req) =
          some (some { allowed := false, message := some e, patch := none }))
    ∧ (serve t path d = some (some r) → r.allowed = false →
        (∃ msg, d = Except.error msg ∧ r.message = some msg)
        ∨ (∃ req2 msg, d = Except.ok req2 ∧ req2.kind = "Ingress" ∧
            req2.objectParse = Except.error msg ∧ r.message = some msg)) := by
  refine ⟨rfl, ?_, ?_⟩
  · intro hk hop
    simp [serve, mutate, hk, hop]
  · intro hs hr
    cases d with
    | error msg =>
      left
      refine ⟨msg, rfl, ?_⟩
      simp only [serve] at hs
      obtain rfl := Option.some.inj (Option.some.inj hs)
      rfl
    | ok req2 =>
      by_cases hp : path = "/mutate"
      · subst hp
        simp only [serve, if_pos] at hs
        cases hm : mutate t req2 with
        | none => rw [hm] at hs; simp at hs
        | some r2 =>
          rw [hm] at hs
          have hr2 : r2 = r := by simpa using hs
          subst hr2
          by_cases hk : req2.kind = "Ingress"
          · cases hop : req2.objectParse with
            | error msg =>
              right
              refine ⟨req2, msg, rfl, hk, hop, ?_⟩
              simp only [mutate, hk, if_pos, hop] at hm
              obtain rfl := Option.some.inj hm.symm
              rfl
            | ok md =>
              exfalso
              simp only [mutate, hk, if_pos, hop] at hm
              have := mutateAfterDecode_allowed t md.name (some md) r2 hm
              rw [this] at hr
              exact Bool.noConfusion hr
          · exfalso
            simp [mutate, hk, mutateAfterDecode_nil_meta] at hm
      · simp only [serve, if_neg hp] at hs
        simp at hs

theorem claim_c8_witness :
    serve [] "/mutate" (Except.error "bad review body") =
      some (some { allowed := false, message := some "bad review body",
                   patch := none })
    ∧ serve [] "/mutate"
        (Except.ok ⟨"Ingress", Except.error "bad ingress body"⟩) =
      some (some { allowed := false, message := some "bad ingress body",
                   patch := none }) :=
  ⟨(claim_c8_error_paths [] "/mutate" "bad review body"
      ⟨"Ingress", Except.error "bad review body"⟩
      (Except.error "bad review body")
      { allowed := false, message := none, patch := none }).1,
   (claim_c8_error_paths [] "/mutate" "bad ingress body"
      ⟨"Ingress", Except.error "bad ingress body"⟩
      (Except.error "bad ingress body")
      { allowed := false, message := none, patch := none }).2.1 rfl rfl⟩

/-- C9: an Ingress whose annotation map is nil, whose name matches a policy
entry with a non-empty default map, and which carries no status marker, is
selected for mutation (`mutationRequired` answers true, substituting an
empty map only for its local status read), yet patch synthesis writes into
the nil map received from the object and panics (embedded as `none`), so
the mutation path produces no patch. -/
theorem claim_c9_nil_map_panic :
    mutationRequired ignoredNamespaces
      [[("ingressName", DVal.str "test-ingress"),
        ("defaultAnnotations", DVal.dmap [("k", DVal.str "v")])]]
      (some { ns := "default", name := "test-ingress", annotations := none }) =
      some true
    ∧ createPatch "test-ingress" none
        [[("ingressName", DVal.str "test-ingress"),
          ("defaultAnnotations", DVal.dmap [("k", DVal.str "v")])]] = none
    ∧ mutate
        [[("ingressName", DVal.str "test-ingress"),
          ("defaultAnnotations", DVal.dmap [("k", DVal.str "v")])]]
        ⟨"Ingress", Except.ok ⟨"default", "test-ingress", none⟩⟩ = none :=
  ⟨by decide, rfl, by decide⟩

/-- C10: the loader accepts (and `json.Unmarshal` can produce) tables whose
matched entry has no "defaultAnnotations" field, has a non-map
"defaultAnnotations", or maps some default key to a non-string; on each,
`createPatch`/`updateAnnotation` neither error nor skip the entry — the
unchecked casts panic (embedded as `none`) instead of yielding a patch. -/
theorem claim_c10_cast_panics :
    createPatch "a" (some []) [[("ingressName", DVal.str "a")]] = none
    ∧ createPatch "a" (some [])
        [[("ingressName", DVal.str "a"),
          ("defaultAnnotations", DVal.str "not-a-map")]] = none
    ∧ createPatch "a" (some [])
        [[("ingressName", DVal.str "a"),
          ("defaultAnnotations", DVal.dmap [("k", DVal.int 3)])]] = none :=
  ⟨rfl, rfl, rfl⟩

end IngressWebhook
